import Mathlib

/-!
# Verification of the SLE medical advisor term-normalization core

Shallow embedding of the term-normalization cascade
(`app/services/normalization_service.py`, `app/services/ai_semantic_service.py`)
and of the report parsing / multi-report merge script
(`.trae/skills/sle-medical-advisor/scripts/parse_reports.py`).

Conventions used throughout:
* Python `dict`s become insertion-ordered association lists (`dictInsert`
  overwrites in place, otherwise appends), which mirrors CPython's ordered
  dictionaries.
* Python `float` confidences become `ℚ`; every literal that the code
  compares (1.0, 0.9, 0.8, 0.6, 0.5 and thresholds) is exactly ordered the
  same way in `ℚ` as in IEEE doubles.
* `re` character classes are modelled on the character repertoire that the
  program actually handles: `\w` is ASCII alphanumerics, `_`, and CJK
  unified ideographs; `\s` is ASCII whitespace.  The dictionary, the field
  table and the parsing rules only contain such characters.
* The remote classifier transport (`httpx` call) is the only impure
  boundary; the list of result dictionaries it produces is passed in as a
  parameter, with the documented fallback lists available as concrete
  instantiations.
-/

set_option maxRecDepth 1000000

set_option maxHeartbeats 2000000

namespace SLE

/-! ## Python dictionaries as insertion-ordered association lists -/

/-- `d[k]` lookup: first (and, for dicts built by `dictInsert`, only)
binding of `k`. -/
def dictGet {α : Type} : List (String × α) → String → Option α
  | [], _ => none
  | (k', v) :: rest, k => if k' = k then some v else dictGet rest k

/-- `d[k] = v`: overwrite in place when the key exists (CPython keeps the
key's original position), append otherwise. -/
def dictInsert {α : Type} : List (String × α) → String → α → List (String × α)
  | [], k, v => [(k, v)]
  | (k', v') :: rest, k, v =>
      if k' = k then (k, v) :: rest else (k', v') :: dictInsert rest k v

/-- The keys of a dict, in insertion order. -/
def dictKeys {α : Type} (d : List (String × α)) : List String := d.map Prod.fst

theorem dictGet_dictInsert {α : Type} (d : List (String × α)) (k k' : String) (v : α) :
    dictGet (dictInsert d k v) k' = if k' = k then some v else dictGet d k' := by
  induction d with
  | nil =>
      by_cases h : k' = k
      · subst h; simp [dictInsert, dictGet]
      · simp [dictInsert, dictGet, h, Ne.symm h]
  | cons p rest ih =>
      obtain ⟨k₀, v₀⟩ := p
      by_cases h0 : k₀ = k
      · subst h0
        by_cases h : k' = k₀
        · subst h; simp [dictInsert, dictGet]
        · simp [dictInsert, dictGet, h, Ne.symm h]
      · by_cases h : k₀ = k'
        · subst h
          have hk : ¬ k₀ = k := h0
          simp [dictInsert, dictGet, h0, hk]
        · simp [dictInsert, dictGet, h0, h, ih]

theorem mem_dictKeys_dictInsert {α : Type} (d : List (String × α)) (k k' : String) (v : α) :
    k' ∈ dictKeys (dictInsert d k v) ↔ k' = k ∨ k' ∈ dictKeys d := by
  induction d with
  | nil => simp [dictInsert, dictKeys]
  | cons p rest ih =>
      obtain ⟨k₀, v₀⟩ := p
      by_cases h0 : k₀ = k
      · subst h0
        simp only [dictInsert, dictKeys]
        split
        · simp only [List.map_cons, List.mem_cons]
          tauto
        · rename_i hF
          exact absurd (by trivial) hF
      · simp only [dictInsert, if_neg h0, dictKeys, List.map_cons, List.mem_cons]
        have hrec := ih
        simp only [dictKeys] at hrec
        rw [hrec]
        tauto

/-! ## Character and string helpers (`re`-level behaviour) -/

/-- Python `\s` (ASCII fragment): space, tab, newline, carriage return,
vertical tab, form feed. -/
def isPyWs (c : Char) : Bool :=
  c == ' ' || c == '\t' || c == '\n' || c == '\r' || c == '\x0b' || c == '\x0c'

/-- Python `\w` on the repertoire used by this program: ASCII letters and
digits, underscore, and CJK unified ideographs (U+4E00–U+9FFF). -/
def isWordChar (c : Char) : Bool :=
  c.isAlphanum || c == '_' || (0x4E00 ≤ c.toNat && c.toNat ≤ 0x9FFF)

/-- `str.lower()`: ASCII lower-casing (CJK characters are caseless). -/
def pyLower (s : String) : String := String.mk (s.toList.map Char.toLower)

/-- `str.strip()` on a character list. -/
def stripWs (cs : List Char) : List Char :=
  ((cs.dropWhile isPyWs).reverse.dropWhile isPyWs).reverse

/-- Helper for `collapseWs`: the flag records whether the previous
character belonged to a whitespace run already emitted as `' '`. -/
def collapseWsGo : Bool → List Char → List Char
  | _, [] => []
  | prevWs, c :: rest =>
      if isPyWs c then
        if prevWs then collapseWsGo true rest
        else ' ' :: collapseWsGo true rest
      else c :: collapseWsGo false rest

/-- `re.sub(r'\s+', ' ', ·)`: each maximal whitespace run becomes one
space. -/
def collapseWs (cs : List Char) : List Char := collapseWsGo false cs

/-- Fuel-indexed scan for `stripParens` (fuel bounds the input length, so
it never runs out). -/
def stripParensGo : Nat → List Char → List Char
  | 0, cs => cs
  | _ + 1, [] => []
  | fuel + 1, c :: rest =>
      if c = '(' && rest.any (fun d => d == ')') then
        stripParensGo fuel ((rest.dropWhile (fun d => d != ')')).drop 1)
      else c :: stripParensGo fuel rest

/-- `re.sub(r'\([^)]*\)', '', ·)`: drop every parenthesis group that has a
closing parenthesis; an unmatched `(` is kept verbatim. -/
def stripParens (cs : List Char) : List Char := stripParensGo cs.length cs

/-- `_clean_term`: collapse whitespace, strip parenthesised content, drop
non-word non-space characters, lower-case — with the intermediate
`.strip()` calls of the source. -/
def cleanTerm (s : String) : String :=
  let cs := stripWs (collapseWs s.toList)
  let cs := stripWs (stripParens cs)
  let cs := stripWs (cs.filter (fun c => isWordChar c || isPyWs c))
  String.mk (cs.map Char.toLower)

/-- Helper for `pySplitWs`: the accumulator holds the current word,
reversed. -/
def pySplitWsGo : List Char → List Char → List (List Char)
  | acc, [] => if acc.isEmpty then [] else [acc.reverse]
  | acc, c :: rest =>
      if isPyWs c then
        if acc.isEmpty then pySplitWsGo [] rest
        else acc.reverse :: pySplitWsGo [] rest
      else pySplitWsGo (c :: acc) rest

/-- `str.split()`: split on whitespace runs, no empty words. -/
def pySplitWs (cs : List Char) : List (List Char) := pySplitWsGo [] cs

/-- First-seen deduplication (the carrier of a Python `set` built from a
list, with a deterministic order; only cardinalities matter below). -/
def dedupFirst (l : List String) : List String :=
  l.foldl (fun acc x => if x ∈ acc then acc else acc ++ [x]) []

/-- Substring test (`needle in haystack` on strings). -/
def isSubstrList (needle : List Char) : List Char → Bool
  | [] => needle.isEmpty
  | h@(_ :: t) => needle.isPrefixOf h || isSubstrList needle t

/-- `_has_keyword_match`: both whitespace-split keyword sets non-empty and
`|common| / min(|k1|, |k2|) ≥ 0.5` (stated as `2·|common| ≥ min`). -/
def hasKeywordMatch (t1 t2 : String) : Bool :=
  let k1 := dedupFirst ((pySplitWs t1.toList).map String.mk)
  let k2 := dedupFirst ((pySplitWs t2.toList).map String.mk)
  if k1.isEmpty || k2.isEmpty then false
  else 2 * (k1.filter (fun x => k2.contains x)).length ≥ min k1.length k2.length

/-! ## The canonical term dictionary (`STANDARD_TERMS`) and variant index -/

/-- `STANDARD_TERMS` of `normalization_service.py`, in source order. -/
def STANDARD_TERMS : List (String × List String) := [
  ("抗核抗体", ["ANA", "抗核抗体测定", "抗核抗体检测", "ANA抗体"]),
  ("抗双链DNA抗体", ["dsDNA", "抗dsDNA抗体", "双链DNA抗体", "ds-DNA"]),
  ("Sm抗体", ["抗Sm抗体", "Sm蛋白抗体"]),
  ("RNP抗体", ["抗RNP抗体", "核糖核蛋白抗体"]),
  ("SSA抗体", ["抗SSA抗体", "Ro抗体", "抗Ro抗体"]),
  ("SSB抗体", ["抗SSB抗体", "La抗体", "抗La抗体"]),
  ("白细胞计数", ["白细胞", "WBC", "白血球计数", "白细胞数"]),
  ("红细胞计数", ["红细胞", "RBC", "红血球计数", "红细胞数"]),
  ("血红蛋白", ["Hb", "血色素", "血红蛋白浓度"]),
  ("血小板计数", ["血小板", "PLT", "血小板数"]),
  ("尿蛋白", ["蛋白", "PRO", "尿液蛋白", "尿中蛋白"]),
  ("尿红细胞", ["红细胞", "ERY", "尿潜血", "隐血"]),
  ("尿白细胞", ["白细胞", "LEU", "尿中白细胞"]),
  ("C3", ["补体C3", "C3补体", "补体成分3"]),
  ("C4", ["补体C4", "C4补体", "补体成分4"]),
  ("IgG", ["免疫球蛋白G", "IgG抗体", "免疫球蛋白G测定"]),
  ("IgA", ["免疫球蛋白A", "IgA抗体", "免疫球蛋白A测定"]),
  ("IgM", ["免疫球蛋白M", "IgM抗体", "免疫球蛋白M测定"])]

/-- Module-initialisation reverse index: for every entry, insert each
variant and its `lower()` form, then the standard name and its `lower()`
form (source lines 43–53; later entries overwrite shared keys). -/
def buildVariantIndexInit (ts : List (String × List String)) : List (String × String) :=
  ts.foldl (fun d p =>
    let d := p.2.foldl (fun d v => dictInsert (dictInsert d v p.1) (pyLower v) p.1) d
    dictInsert (dictInsert d p.1 p.1) (pyLower p.1) p.1) []

/-- `VARIANT_TO_STANDARD` as built at import time. -/
def VARIANT_TO_STANDARD : List (String × String) := buildVariantIndexInit STANDARD_TERMS

/-- The rebuild performed by `update_standard_terms` (source lines
266–271): original variants and the standard name only — no `lower()`
forms. -/
def rebuildVariantIndex (ts : List (String × List String)) : List (String × String) :=
  ts.foldl (fun d p =>
    dictInsert (p.2.foldl (fun d v => dictInsert d v p.1) d) p.1 p.1) []

/-- `update_standard_terms`: extend an existing entry's variant list, or
add a new entry (the caller then uses `rebuildVariantIndex` on the
result, as the source does in place). -/
def update_standard_terms (ts newTerms : List (String × List String)) :
    List (String × List String) :=
  newTerms.foldl (fun acc p =>
    match dictGet acc p.1 with
    | some vs => dictInsert acc p.1 (vs ++ p.2)
    | none => dictInsert acc p.1 p.2) ts

/-- `common_fields` of `_normalize_term_sync` step 4 (keys equal values,
so a plain list). -/
def COMMON_FIELDS : List String :=
  ["名称", "手机号", "联系电话", "手机", "客户姓名", "姓名", "收货人姓名", "地址",
   "收货地址", "邮编", "身份证号", "出生日期", "性别", "年龄", "民族", "职业",
   "婚姻状况", "籍贯", "工作单位", "紧急联系人", "邮箱", "QQ", "微信", "备注"]

/-! ## The lexical matcher (`_normalize_term_sync`) -/

/-- Tier 2, partial containment: first index entry (insertion order) whose
cleaned key contains, or is contained in, the cleaned term. -/
def partialTierHit (index : List (String × String)) (tc : String) : Option String :=
  (index.find? (fun p =>
    isSubstrList (cleanTerm p.1).toList tc.toList ||
    isSubstrList tc.toList (cleanTerm p.1).toList)).map Prod.snd

/-- Tier 3, keyword overlap: first dictionary entry one of whose terms
(standard first, then variants) keyword-matches the cleaned term. -/
def keywordTierHit (ts : List (String × List String)) (tc : String) : Option String :=
  (ts.find? (fun p =>
    (p.1 :: p.2).any (fun t => hasKeywordMatch tc (cleanTerm t)))).map Prod.fst

/-- Tier 4b, partial match against the administrative field table. -/
def fieldPartialHit (tl : String) : Option String :=
  COMMON_FIELDS.find? (fun f =>
    isSubstrList (pyLower f).toList tl.toList ||
    isSubstrList tl.toList (pyLower f).toList)

/-- `_normalize_term_sync`, parameterised by the current reverse index and
standard-term dictionary (the Python function reads mutable module
globals, which `update_standard_terms` replaces). -/
def normalizeTermSyncIn (index : List (String × String))
    (ts : List (String × List String)) (term : String) : String × ℚ :=
  let tc := cleanTerm term
  match dictGet index tc with
  | some s => (s, mkRat 1 1)
  | none =>
    match dictGet index term with
    | some s => (s, mkRat 1 1)
    | none =>
      match partialTierHit index tc with
      | some s => (s, mkRat 8 10)
      | none =>
        match keywordTierHit ts tc with
        | some s => (s, mkRat 6 10)
        | none =>
          if term ∈ COMMON_FIELDS then (term, mkRat 9 10)
          else
            match fieldPartialHit (pyLower term) with
            | some f => (f, mkRat 8 10)
            | none => (term, mkRat 5 10)

/-- `_normalize_term_sync` against the import-time dictionary state. -/
def normalizeTermSync (term : String) : String × ℚ :=
  normalizeTermSyncIn VARIANT_TO_STANDARD STANDARD_TERMS term

/-! ## The remote classifier adapter and the batch orchestrator

`AISemanticClassifier.classify_terms_batch` never raises: it returns a
list of result dictionaries — the documented fallback lists when the key
is missing, the call fails or the response cannot be parsed, and whatever
JSON the remote produced on success.  Such a dictionary is modelled with
every field optional (a successful parse is unconstrained JSON; the
fallback dictionaries omit `original`).  `confidence := none` stands for
a missing *or non-numeric* entry — either way `result["confidence"] <
threshold` raises in `AISemanticService.classify_terms_batch`. -/

/-- One element of the classifier's result list. -/
structure AIDict where
  original : Option String
  normalized : Option String
  category : Option String
  confidence : Option ℚ
  explanation : Option String
deriving DecidableEq, Repr

/-- The misconfiguration fallback (`if not self.api_key`, source lines
97–106): per term `normalized = term`, `confidence = 0.0`, and no
`original` key. -/
def classifierNoKeyBatch (terms : List String) : List AIDict :=
  terms.map (fun t => ⟨none, some t, some "其他", some (mkRat 0 1), some "未配置API密钥"⟩)

/-- The explanation written by the below-threshold rewrite.  (The Python
f-string also interpolates the numeric threshold; no claim inspects the
explanation text.) -/
def lowConfExplanation : String := "置信度低于阈值，使用原术语"

/-- The rewrite loop of `AISemanticService.classify_terms_batch` (source
lines 649–659): results under the threshold get `normalized :=
result.get("original", "")`.  `none` = the loop raised (a result without
a usable `confidence`), which the orchestrator's `except` swallows. -/
def aiServiceRewrite (threshold : ℚ) : List AIDict → Option (List AIDict)
  | [] => some []
  | r :: rs =>
    match r.confidence with
    | none => none
    | some c =>
      let r' := if c < threshold then
          { r with normalized := some (r.original.getD ""),
                   explanation := some lowConfExplanation }
        else r
      match aiServiceRewrite threshold rs with
      | none => none
      | some rs' => some (r' :: rs')

/-- One element of the orchestrator's output. -/
structure NormResult where
  original : String
  normalized : String
  confidence : ℚ
deriving DecidableEq, Repr

/-- The splice loop of `normalize_medical_terms_with_ai` (source lines
193–199), run inside `try`: pair AI results with the collected
`(index, term)` pairs; a missing pair (`IndexError`) or a result without
`normalized`/`confidence` (`KeyError`) aborts the loop, keeping the
splices already made — exactly what `except Exception` leaves behind. -/
def spliceAI : List NormResult → List (Nat × String) → List AIDict → List NormResult
  | acc, _, [] => acc
  | acc, [], _ :: _ => acc
  | acc, (i, t) :: us, r :: rs =>
    match r.normalized, r.confidence with
    | some n, some c => spliceAI (acc.set i ⟨t, n, c⟩) us rs
    | _, _ => acc

/-- `normalize_medical_terms_with_ai(terms, threshold)`.
`classifierOutput` is the list the transport-level
`classify_terms_batch` produced for the collected unknown terms (the
function's only impure input). -/
def normalize_medical_terms_with_ai (terms : List String) (threshold : ℚ)
    (classifierOutput : List AIDict) : List NormResult :=
  let base := terms.map (fun t => let p := normalizeTermSync t; ⟨t, p.1, p.2⟩)
  let unknowns := terms.enum.filter (fun p => (normalizeTermSync p.2).2 < threshold)
  if unknowns.isEmpty then base
  else
    match aiServiceRewrite threshold classifierOutput with
    | none => base
    | some airs => spliceAI base unknowns airs

/-! ## `parse_reports.py`: regex extraction of lab indicators

Every lab rule has the shape `LITERAL .*? [:：] \s* (CAPTURE)` and is
searched with `re.IGNORECASE | re.MULTILINE` (the latter is inert: no
anchors).  The search below implements exactly that fragment of the `re`
engine: leftmost starting position wins, the lazy gap takes the shortest
extent that lets the rest match, `.` does not cross a newline, `\s`
does (so skipped whitespace after the colon may). -/

/-- Case-insensitive character comparison (ASCII case,
as the rules' literals are ASCII + CJK). -/
def charIEq (a b : Char) : Bool := a.toLower == b.toLower

/-- Case-insensitive literal prefix match. -/
def litMatchesAt : List Char → List Char → Bool
  | [], _ => true
  | _ :: _, [] => false
  | l :: ls, c :: cs => charIEq l c && litMatchesAt ls cs

/-- The three capture-group shapes used by the lab rules. -/
inductive CapPat where
  /-- `([\d\.]+)` — greedy run of digits and dots. -/
  | numDots : CapPat
  /-- `([+-]|\d+:\d+|阳性|阴性)` — the ANA titre form. -/
  | qualColon : CapPat
  /-- `([+-]|\d+\.?\d*|阳性|阴性)` (also written `[\+\-]`). -/
  | qualNum : CapPat
deriving DecidableEq, Repr

/-- `\d+\.?\d*`, greedy, assuming the head is a digit. -/
def capNumOptDotNum (cs : List Char) : List Char :=
  let d1 := cs.takeWhile Char.isDigit
  match cs.dropWhile Char.isDigit with
  | '.' :: rest2 => d1 ++ '.' :: rest2.takeWhile Char.isDigit
  | _ => d1

/-- Match a capture group at the current position, returning the captured
characters.  Alternatives are tried in source order, as `re` does. -/
def capMatchOf : CapPat → List Char → Option (List Char)
  | .numDots, cs =>
      let r := cs.takeWhile (fun c => c.isDigit || c == '.')
      if r.isEmpty then none else some r
  | .qualColon, cs =>
      match cs with
      | [] => none
      | c :: _ =>
        if c == '+' || c == '-' then some [c]
        else if c.isDigit then
          let d1 := cs.takeWhile Char.isDigit
          match cs.dropWhile Char.isDigit with
          | ':' :: rest2 =>
            let d2 := rest2.takeWhile Char.isDigit
            if d2.isEmpty then none else some (d1 ++ ':' :: d2)
          | _ => none
        else if String.toList "阳性" |>.isPrefixOf cs then some (String.toList "阳性")
        else if String.toList "阴性" |>.isPrefixOf cs then some (String.toList "阴性")
        else none
  | .qualNum, cs =>
      match cs with
      | [] => none
      | c :: _ =>
        if c == '+' || c == '-' then some [c]
        else if c.isDigit then some (capNumOptDotNum cs)
        else if String.toList "阳性" |>.isPrefixOf cs then some (String.toList "阳性")
        else if String.toList "阴性" |>.isPrefixOf cs then some (String.toList "阴性")
        else none

/-- Try every extent of the lazy gap `.*?` in increasing order: the head
must either be the colon (then `\s*` is skipped greedily and the capture
tried — no alternative starts with whitespace, so no backtracking into
`\s*`), or a non-newline gap character. -/
def matchGapCap (cap : CapPat) : List Char → Option (List Char)
  | [] => none
  | c :: rest =>
    if c == ':' || c == '：' then
      match capMatchOf cap (rest.dropWhile isPyWs) with
      | some v => some v
      | none => matchGapCap cap rest
    else if c == '\n' then none
    else matchGapCap cap rest

/-- One lab parsing rule: indicator name, literal pattern prefix, capture
shape. -/
structure LabRule where
  name : String
  lit : String
  cap : CapPat
deriving DecidableEq, Repr

/-- `re.search` for a lab rule: first position where the literal matches
and the gap/colon/capture completes. -/
def searchCaptureGo (r : LabRule) : List Char → Option (List Char)
  | [] => none
  | l@(_ :: rest) =>
    (if litMatchesAt r.lit.toList l then
        matchGapCap r.cap (l.drop r.lit.toList.length)
      else none).orElse (fun _ => searchCaptureGo r rest)

/-- `re.search(pattern, text, re.IGNORECASE | re.MULTILINE)` restricted to
the rule shapes of `PARSING_RULES['lab']`, returning group 1. -/
def searchCapture (r : LabRule) (text : String) : Option (List Char) :=
  searchCaptureGo r text.toList

/-- `PARSING_RULES['lab']`, flattened in the source's category and
insertion order (antibodies, blood counts, urine, immune). -/
def LAB_RULES : List LabRule := [
  ⟨"ANA", "抗核抗体", .qualColon⟩,
  ⟨"dsDNA", "抗双链DNA抗体", .qualNum⟩,
  ⟨"Sm抗体", "Sm抗体", .qualNum⟩,
  ⟨"RNP抗体", "RNP抗体", .qualNum⟩,
  ⟨"SSA抗体", "SSA抗体", .qualNum⟩,
  ⟨"SSB抗体", "SSB抗体", .qualNum⟩,
  ⟨"白细胞计数", "白细胞", .numDots⟩,
  ⟨"红细胞计数", "红细胞", .numDots⟩,
  ⟨"血红蛋白", "血红蛋白", .numDots⟩,
  ⟨"血小板计数", "血小板", .numDots⟩,
  ⟨"蛋白", "尿蛋白", .qualNum⟩,
  ⟨"红细胞", "尿红细胞", .qualNum⟩,
  ⟨"白细胞", "尿白细胞", .qualNum⟩,
  ⟨"C3", "C3", .numDots⟩,
  ⟨"C4", "C4", .numDots⟩,
  ⟨"IgG", "IgG", .numDots⟩,
  ⟨"IgA", "IgA", .numDots⟩,
  ⟨"IgM", "IgM", .numDots⟩]

/-- A `REFERENCE_RANGES` entry: numeric bounds plus the display strings
the Python f-string renders for them. -/
structure RefRange where
  minv : ℚ
  maxv : ℚ
  minS : String
  maxS : String
  unit : String
deriving DecidableEq, Repr

/-- `REFERENCE_RANGES` of `parse_reports.py`. -/
def REFERENCE_RANGES : List (String × RefRange) := [
  ("白细胞计数", ⟨mkRat 4 1, mkRat 10 1, "4.0", "10.0", "10^9/L"⟩),
  ("红细胞计数", ⟨mkRat 7 2, mkRat 11 2, "3.5", "5.5", "10^12/L"⟩),
  ("血红蛋白", ⟨mkRat 110 1, mkRat 160 1, "110", "160", "g/L"⟩),
  ("血小板计数", ⟨mkRat 100 1, mkRat 300 1, "100", "300", "10^9/L"⟩),
  ("C3", ⟨mkRat 8 10, mkRat 16 10, "0.8", "1.6", "g/L"⟩),
  ("C4", ⟨mkRat 1 10, mkRat 4 10, "0.1", "0.4", "g/L"⟩),
  ("IgG", ⟨mkRat 7 1, mkRat 16 1, "7.0", "16.0", "g/L"⟩),
  ("IgA", ⟨mkRat 7 10, mkRat 4 1, "0.7", "4.0", "g/L"⟩),
  ("IgM", ⟨mkRat 4 10, mkRat 23 10, "0.4", "2.3", "g/L"⟩)]

/-- An indicator record as produced by `parse_indicators`. -/
structure PIndicator where
  name : String
  value : String
  unit : String
  reference_range : String
  is_abnormal : Bool
  notes : String
deriving DecidableEq, Repr

/-- `value.replace('.', '').isdigit()`. -/
def digitsAfterDotRemoval (v : List Char) : Bool :=
  let r := v.filter (fun c => c != '.')
  !r.isEmpty && r.all Char.isDigit

/-- Decimal digits to a natural number. -/
def digitsToNat (ds : List Char) : Nat :=
  ds.foldl (fun n c => 10 * n + (c.toNat - '0'.toNat)) 0

/-- `float(value)` on a digits-and-dots string, as an exact rational;
`none` when `float` raises `ValueError` (more than one dot). -/
def pyFloatOfDigitsDots (v : List Char) : Option ℚ :=
  let ip := v.takeWhile Char.isDigit
  match v.dropWhile Char.isDigit with
  | [] => some (mkRat (digitsToNat ip) 1)
  | '.' :: fp =>
      if fp.all Char.isDigit then
        some (mkRat (digitsToNat ip * 10 ^ fp.length + digitsToNat fp) (10 ^ fp.length))
      else none
  | _ => none

/-- Build one lab indicator record from a rule's name and captured value
(source lines 140–160); `none` is the `ValueError` `float()` raises on a
multi-dot value, which `parse_indicators` does not catch. -/
def mkLabIndicator (name value : String) : Option PIndicator :=
  match dictGet REFERENCE_RANGES name with
  | some r =>
      let refStr := r.minS ++ "-" ++ r.maxS ++ " " ++ r.unit
      if digitsAfterDotRemoval value.toList then
        match pyFloatOfDigitsDots value.toList with
        | none => none
        | some q =>
            some ⟨name, value, r.unit, refStr, decide (q < r.minv ∨ r.maxv < q), ""⟩
      else
        some ⟨name, value, r.unit, refStr,
          ["阳性", "+", "++", "+++"].contains value, ""⟩
  | none =>
      some ⟨name, value, "", "", ["阳性", "+", "++", "+++"].contains value, ""⟩

/-- `parse_indicators(text, 'lab')`: run every rule, appending an
indicator per match; `none` propagates the uncaught `ValueError`. -/
def parse_indicators_lab (text : String) : Option (List PIndicator) :=
  LAB_RULES.foldlM (fun acc rule =>
    match searchCapture rule text with
    | none => some acc
    | some v =>
        (mkLabIndicator rule.name (String.mk (stripWs v))).map
          (fun i => acc ++ [i])) []

/-! ## `parse_multiple_reports`: the multi-report merge

`parse_report` does file I/O and OCR; the merge loop (source lines
224–278) consumes its results.  It is modelled from that boundary: the
input is the list of successfully parsed reports, in input order (a
report whose parsing raised is simply absent, as the `except` makes it).
-/

/-- A successfully parsed single report (`parse_report`'s result minus
the file path and type, which the merge does not consult). -/
structure ParsedReport where
  report_date : String
  hospital_name : String
  indicators : List PIndicator
deriving DecidableEq, Repr

/-- One merged entry: a lone occurrence passes through with its own
`notes` and no trend; repeated occurrences get the trend list. -/
structure MergedIndicator where
  name : String
  value : String
  unit : String
  reference_range : String
  is_abnormal : Bool
  notes : String
  trend : Option (List PIndicator)
deriving DecidableEq, Repr

/-- One step of collecting `all_indicators[name].append(indicator)`. -/
def gatherStep (d : List (String × List PIndicator)) (ind : PIndicator) :
    List (String × List PIndicator) :=
  match dictGet d ind.name with
  | some vs => dictInsert d ind.name (vs ++ [ind])
  | none => dictInsert d ind.name [ind]

/-- `all_indicators` after the report loop: occurrences grouped by raw
`name`, keys in first-appearance order, values in input order. -/
def gatherIndicators (reports : List ParsedReport) : List (String × List PIndicator) :=
  reports.foldl (fun d rep => rep.indicators.foldl gatherStep d) []

/-- Code-point lexicographic `<` on character lists — Python's `str`
comparison. -/
def listLtChar : List Char → List Char → Bool
  | [], [] => false
  | [], _ :: _ => true
  | _ :: _, [] => false
  | a :: as, b :: bs =>
      if a < b then true else if b < a then false else listLtChar as bs

/-- Python `s1 < s2` on strings (code-point lexicographic). -/
def strLt (a b : String) : Bool := listLtChar a.toList b.toList

/-- `latest_date`: lexicographically greatest non-empty `report_date`
(Python compares `str` by code point). -/
def latestDate (reports : List ParsedReport) : Option String :=
  reports.foldl (fun acc rep =>
    if rep.report_date ≠ "" then
      match acc with
      | none => some rep.report_date
      | some d => if strLt d rep.report_date then some rep.report_date else acc
    else acc) none

/-- Hospital names in first-appearance order.  (Python collects them in a
`set` and joins with `', '`; its iteration order is unspecified and no
claim depends on it.) -/
def hospitalNames (reports : List ParsedReport) : List String :=
  reports.foldl (fun acc rep =>
    if rep.hospital_name ≠ "" ∧ rep.hospital_name ∉ acc then
      acc ++ [rep.hospital_name]
    else acc) []

/-- The merge of one gathered group (source lines 255–269): a singleton
passes through; otherwise all display fields come from `values[0]` — the
first occurrence in input order — with the occurrence count in `notes`
and the full list in `trend`.  (`[]` cannot occur: every key is created
with one occurrence.) -/
def mergeGroup (p : String × List PIndicator) : Option MergedIndicator :=
  match p.2 with
  | [] => none
  | [v] => some ⟨v.name, v.value, v.unit, v.reference_range, v.is_abnormal, v.notes, none⟩
  | v :: w :: rest =>
      some ⟨p.1, v.value, v.unit, v.reference_range, v.is_abnormal,
        "多次检查,共" ++ toString (v :: w :: rest).length ++ "次",
        some (v :: w :: rest)⟩

/-- The result dictionary of `parse_multiple_reports` (minus
`report_type` and the verbatim `reports` echo). -/
structure MergedReport where
  report_count : Nat
  report_date : Option String
  hospital_names : List String
  indicators : List MergedIndicator
deriving DecidableEq, Repr

/-- `parse_multiple_reports`, from the parsed-report boundary. -/
def parse_multiple_reports (reports : List ParsedReport) : MergedReport :=
  ⟨reports.length, latestDate reports, hospitalNames reports,
    (gatherIndicators reports).filterMap mergeGroup⟩

/-- All occurrences of indicator name `n`, in report order then
indicator order — the reference ordering for the merge proofs. -/
def allOccurrences (reports : List ParsedReport) (n : String) : List PIndicator :=
  (reports.flatMap ParsedReport.indicators).filter (fun i => i.name == n)

/-! ## General lemmas about the embedded operations -/

theorem set_getq_eq {α : Type} :
    ∀ (l : List α) (i : Nat) (a : α), l[i]? = some a → l.set i a = l
  | [], i, a, h => by simp at h
  | b :: t, 0, a, h => by
      simp at h
      simp [List.set, h]
  | b :: t, i + 1, a, h => by
      simp at h
      simp [List.set, set_getq_eq t i a h]

/-- The five confidences the lexical tiers can produce. -/
def LEX_CONFS : List ℚ :=
  [mkRat 1 1, mkRat 9 10, mkRat 8 10, mkRat 6 10, mkRat 5 10]

theorem normalizeTermSyncIn_conf_mem (index : List (String × String))
    (ts : List (String × List String)) (term : String) :
    (normalizeTermSyncIn index ts term).2 ∈ LEX_CONFS := by
  cases h1 : dictGet index (cleanTerm term) with
  | some s => simp [normalizeTermSyncIn, h1, LEX_CONFS]
  | none =>
    cases h2 : dictGet index term with
    | some s => simp [normalizeTermSyncIn, h1, h2, LEX_CONFS]
    | none =>
      cases h3 : partialTierHit index (cleanTerm term) with
      | some s => simp [normalizeTermSyncIn, h1, h2, h3, LEX_CONFS]
      | none =>
        cases h4 : keywordTierHit ts (cleanTerm term) with
        | some s => simp [normalizeTermSyncIn, h1, h2, h3, h4, LEX_CONFS]
        | none =>
          by_cases h5 : term ∈ COMMON_FIELDS
          · simp [normalizeTermSyncIn, h1, h2, h3, h4, h5, LEX_CONFS]
          · cases h6 : fieldPartialHit (pyLower term) with
            | some f => simp [normalizeTermSyncIn, h1, h2, h3, h4, h5, h6, LEX_CONFS]
            | none => simp [normalizeTermSyncIn, h1, h2, h3, h4, h5, h6, LEX_CONFS]

/-- What the below-threshold rewrite guarantees about each element of its
output. -/
theorem aiServiceRewrite_elem (th : ℚ) :
    ∀ (rs rs' : List AIDict), aiServiceRewrite th rs = some rs' →
      ∀ a ∈ rs', ∃ d ∈ rs, ∃ c, d.confidence = some c ∧ a.confidence = some c ∧
        ((c < th ∧ a.normalized = some (d.original.getD "")) ∨
         (¬ c < th ∧ a.normalized = d.normalized))
  | [], rs', h => by
      simp [aiServiceRewrite] at h
      subst h
      intro a ha
      simp at ha
  | r :: rs, rs', h => by
      intro a ha
      rw [aiServiceRewrite] at h
      cases hc : r.confidence with
      | none => rw [hc] at h; exact absurd h (by simp)
      | some c =>
        rw [hc] at h
        cases hrec : aiServiceRewrite th rs with
        | none => rw [hrec] at h; exact absurd h (by simp)
        | some rs₀ =>
          rw [hrec] at h
          simp only [Option.some.injEq] at h
          subst h
          rcases List.mem_cons.mp ha with rfl | hmem
          · refine ⟨r, List.mem_cons_self r rs, c, hc, ?_, ?_⟩
            · by_cases hlt : c < th <;> simp [hlt, hc]
            · by_cases hlt : c < th
              · exact Or.inl ⟨hlt, by simp [hlt]⟩
              · exact Or.inr ⟨hlt, by simp [hlt]⟩
          · obtain ⟨d, hd, hrest⟩ := aiServiceRewrite_elem th rs rs₀ hrec a hmem
            exact ⟨d, List.mem_cons_of_mem _ hd, hrest⟩

/-- Every position of the splice result is either untouched or carries a
`normalized`/`confidence` pair read off one of the AI result dicts. -/
theorem spliceAI_getq :
    ∀ (airs : List AIDict) (us : List (Nat × String)) (acc : List NormResult)
      (i : Nat) (r : NormResult), (spliceAI acc us airs)[i]? = some r →
      acc[i]? = some r ∨ ∃ a ∈ airs, a.normalized = some r.normalized ∧
        a.confidence = some r.confidence
  | [], us, acc, i, r, h => by
      cases us <;> exact Or.inl (by simpa [spliceAI] using h)
  | a :: airs, [], acc, i, r, h => Or.inl (by simpa [spliceAI] using h)
  | a :: airs, (j, t) :: us, acc, i, r, h => by
      cases hn : a.normalized with
      | none =>
          cases hc : a.confidence <;>
            exact Or.inl (by simpa [spliceAI, hn, hc] using h)
      | some n =>
        cases hc : a.confidence with
        | none => exact Or.inl (by simpa [spliceAI, hn, hc] using h)
        | some c =>
          rw [spliceAI, hn, hc] at h
          rcases spliceAI_getq airs us _ i r h with hin | ⟨a', ha', hrest⟩
          · rw [List.getElem?_set] at hin
            by_cases hij : j = i
            · subst hij
              by_cases hlen : j < acc.length
              · simp only [if_pos rfl, hlen, if_true] at hin
                obtain rfl : (⟨t, n, c⟩ : NormResult) = r := by
                  simpa using hin
                exact Or.inr ⟨a, List.mem_cons_self _ _, hn, hc⟩
              · simp only [if_pos rfl, hlen, if_false] at hin
                exact absurd hin (by simp)
            · simp only [if_neg hij] at hin
              exact Or.inl hin
          · exact Or.inr ⟨a', List.mem_cons_of_mem _ ha', hrest⟩

/-- Splicing never changes the `original` column. -/
theorem spliceAI_map_original :
    ∀ (airs : List AIDict) (us : List (Nat × String)) (acc : List NormResult)
      (terms : List String),
      acc.map NormResult.original = terms →
      (∀ p ∈ us, terms[p.1]? = some p.2) →
      (spliceAI acc us airs).map NormResult.original = terms
  | [], us, acc, terms, hacc, _ => by
      cases us <;> simpa [spliceAI] using hacc
  | a :: airs, [], acc, terms, hacc, _ => by simpa [spliceAI] using hacc
  | a :: airs, (j, t) :: us, acc, terms, hacc, hus => by
      cases hn : a.normalized with
      | none =>
          cases hc : a.confidence <;> simpa [spliceAI, hn, hc] using hacc
      | some n =>
        cases hc : a.confidence with
        | none => simpa [spliceAI, hn, hc] using hacc
        | some c =>
          rw [spliceAI, hn, hc]
          have hjt : terms[j]? = some t := hus (j, t) (List.mem_cons_self _ _)
          have hset : (acc.set j ⟨t, n, c⟩).map NormResult.original = terms := by
            rw [List.map_set, hacc]
            exact set_getq_eq _ _ _ hjt
          exact spliceAI_map_original airs us _ terms hset
            (fun p hp => hus p (List.mem_cons_of_mem _ hp))

theorem base_map_original (terms : List String) :
    (terms.map (fun t =>
      let p := normalizeTermSync t
      (⟨t, p.1, p.2⟩ : NormResult))).map NormResult.original = terms := by
  induction terms with
  | nil => rfl
  | cons t ts ih => simp [ih]

theorem unknowns_getq (terms : List String) (threshold : ℚ) :
    ∀ p ∈ terms.enum.filter (fun p => (normalizeTermSync p.2).2 < threshold),
      terms[p.1]? = some p.2 := by
  intro p hp
  obtain ⟨i, t⟩ := p
  have hmem : (i, t) ∈ terms.enum := (List.mem_filter.mp hp).1
  exact (List.mk_mem_enum_iff_getElem?).mp hmem

/-- An entry read off the pre-splice (lexical) result list is exactly the
lexical matcher's verdict on its own `original`. -/
theorem base_getq_lexical (terms : List String) (i : Nat) (r : NormResult)
    (h : (terms.map (fun t =>
      let p := normalizeTermSync t
      (⟨t, p.1, p.2⟩ : NormResult)))[i]? = some r) :
    normalizeTermSync r.original = (r.normalized, r.confidence) := by
  rw [List.getElem?_map] at h
  cases ht : terms[i]? with
  | none => rw [ht] at h; exact absurd h (by simp)
  | some t =>
      rw [ht] at h
      simp only [Option.map_some'] at h
      obtain rfl : (⟨t, (normalizeTermSync t).1, (normalizeTermSync t).2⟩ : NormResult) = r := by
        simpa using h
      exact Prod.mk.eta.symm

/-! ## Claim theorems -/

/-- C6.  The batch orchestrator is total for every term list, threshold
and classifier outcome — the adapter's exceptional paths are the
`none`/abort branches of `aiServiceRewrite` and `spliceAI`, all of which
the orchestrator absorbs — and it returns exactly one result per input
term, whose `original` field is that term. -/
theorem C6_total_one_result_per_term (terms : List String) (threshold : ℚ)
    (classifierOutput : List AIDict) :
    (normalize_medical_terms_with_ai terms threshold classifierOutput).map
      NormResult.original = terms := by
  unfold normalize_medical_terms_with_ai
  by_cases hu : (terms.enum.filter
      (fun p => (normalizeTermSync p.2).2 < threshold)).isEmpty
  · simp only [hu, if_true]
    exact base_map_original terms
  · simp only [hu, Bool.false_eq_true, if_false]
    cases aiServiceRewrite threshold classifierOutput with
    | none => exact base_map_original terms
    | some airs =>
        exact spliceAI_map_original airs _ _ terms (base_map_original terms)
          (unknowns_getq terms threshold)

/-- C7 (counterexample).  The claim says every confidence is a lexical
tier value or an adapter-sourced value *lying in [0,1]*, never greater
than 1.  The orchestrator never clamps: an adapter response reporting
confidence 3/2 for an otherwise-unresolved term passes straight through
to the output. -/
theorem C7_counterexample :
    normalize_medical_terms_with_ai ["检查项目甲乙丙"] (mkRat 6 10)
      [⟨some "检查项目甲乙丙", some "白细胞计数", some "血常规", some (mkRat 3 2),
        some "远端返回"⟩] =
      [⟨"检查项目甲乙丙", "白细胞计数", mkRat 3 2⟩] ∧ ¬ (mkRat 3 2 ≤ 1) :=
  ⟨by decide, by decide⟩

/-- C7 (amended).  Every confidence the lexical matcher produces is one
of {1.0, 0.9, 0.8, 0.6, 0.5}; every confidence in the batch
orchestrator's output is either such a lexical value or exactly a
confidence reported by the classifier output — passed through with no
clamping to [0,1]. -/
theorem C7_confidence_range :
    (∀ term : String, (normalizeTermSync term).2 ∈ LEX_CONFS) ∧
    (∀ (terms : List String) (threshold : ℚ) (classifierOutput : List AIDict)
      (i : Nat) (r : NormResult),
      (normalize_medical_terms_with_ai terms threshold classifierOutput)[i]? = some r →
      r.confidence ∈ LEX_CONFS ∨
        ∃ d ∈ classifierOutput, d.confidence = some r.confidence) := by
  constructor
  · intro term
    exact normalizeTermSyncIn_conf_mem _ _ term
  · intro terms th out i r h
    unfold normalize_medical_terms_with_ai at h
    by_cases hu : (terms.enum.filter
        (fun p => (normalizeTermSync p.2).2 < th)).isEmpty
    · rw [if_pos hu] at h
      left
      have := base_getq_lexical terms i r h
      have hconf := normalizeTermSyncIn_conf_mem VARIANT_TO_STANDARD STANDARD_TERMS r.original
      rw [normalizeTermSync] at this
      rw [this] at hconf
      exact hconf
    · rw [if_neg hu] at h
      cases hrw : aiServiceRewrite th out with
      | none =>
          rw [hrw] at h
          left
          have := base_getq_lexical terms i r h
          have hconf := normalizeTermSyncIn_conf_mem VARIANT_TO_STANDARD STANDARD_TERMS r.original
          rw [normalizeTermSync] at this
          rw [this] at hconf
          exact hconf
      | some airs =>
          rw [hrw] at h
          rcases spliceAI_getq airs _ _ i r h with hbase | ⟨a, ha, _, hac⟩
          · left
            have := base_getq_lexical terms i r hbase
            have hconf := normalizeTermSyncIn_conf_mem VARIANT_TO_STANDARD STANDARD_TERMS r.original
            rw [normalizeTermSync] at this
            rw [this] at hconf
            exact hconf
          · right
            obtain ⟨d, hd, c, hdc, hac', _⟩ := aiServiceRewrite_elem th out airs hrw a ha
            refine ⟨d, hd, ?_⟩
            rw [hdc, ← hac', hac]

/-- C7 (witness): the amended theorem applied to the batch `["ANA"]` with
threshold 0.5 and an empty classifier output, at position 0. -/
theorem C7_confidence_range_witness :
    (⟨"ANA", "抗核抗体", mkRat 1 1⟩ : NormResult).confidence ∈ LEX_CONFS ∨
      ∃ d ∈ ([] : List AIDict), d.confidence =
        some (⟨"ANA", "抗核抗体", mkRat 1 1⟩ : NormResult).confidence :=
  C7_confidence_range.2 ["ANA"] (mkRat 5 10) [] 0
    ⟨"ANA", "抗核抗体", mkRat 1 1⟩ (by decide)

/-- C2 (counterexample).  The claim: every result with confidence below
the threshold has `normalized = original`, regardless of adapter
misconfiguration.  With no API key configured, the fallback result dicts
carry no `original` key, so the below-threshold rewrite sets
`normalized` to `""`, not to the original term. -/
theorem C2_counterexample :
    normalize_medical_terms_with_ai ["陌生化验项目"] (mkRat 6 10)
      (classifierNoKeyBatch ["陌生化验项目"]) =
      [⟨"陌生化验项目", "", mkRat 0 1⟩] ∧
    mkRat 0 1 < mkRat 6 10 ∧ ("" : String) ≠ "陌生化验项目" :=
  ⟨by decide, by decide, by decide⟩

/-- C2 (amended).  A below-threshold result is either the untouched
lexical verdict on its own original term (adapter raised, or its result
list was too short to reach this position), or an AI-spliced entry whose
`normalized` equals the `original` field of some adapter result dict —
defaulting to the empty string when that dict has no `original` field,
as in the misconfiguration and transport fallbacks. -/
theorem C2_below_threshold_normalized (terms : List String) (threshold : ℚ)
    (classifierOutput : List AIDict) (i : Nat) (r : NormResult) :
    (normalize_medical_terms_with_ai terms threshold classifierOutput)[i]? = some r →
    r.confidence < threshold →
    normalizeTermSync r.original = (r.normalized, r.confidence) ∨
      ∃ d ∈ classifierOutput, r.normalized = d.original.getD "" ∧
        d.confidence = some r.confidence := by
  intro h hlt
  unfold normalize_medical_terms_with_ai at h
  by_cases hu : (terms.enum.filter
      (fun p => (normalizeTermSync p.2).2 < threshold)).isEmpty
  · rw [if_pos hu] at h
    exact Or.inl (base_getq_lexical terms i r h)
  · rw [if_neg hu] at h
    cases hrw : aiServiceRewrite threshold classifierOutput with
    | none =>
        rw [hrw] at h
        exact Or.inl (base_getq_lexical terms i r h)
    | some airs =>
        rw [hrw] at h
        rcases spliceAI_getq airs _ _ i r h with hbase | ⟨a, ha, han, hac⟩
        · exact Or.inl (base_getq_lexical terms i r hbase)
        · right
          obtain ⟨d, hd, c, hdc, hac', hdisj⟩ :=
            aiServiceRewrite_elem threshold classifierOutput airs hrw a ha
          have hcr : c = r.confidence := by
            rw [hac'] at hac
            exact (Option.some.injEq _ _).mp hac
          rcases hdisj with ⟨_, hn⟩ | ⟨hge, _⟩
          · refine ⟨d, hd, ?_, ?_⟩
            · rw [hn] at han
              exact ((Option.some.injEq _ _).mp han).symm
            · rw [hdc, hcr]
          · exact absurd (hcr ▸ hlt) hge

/-- C2 (witness): the amended theorem applied to a one-term batch whose
term is unresolved lexically, with the no-key fallback classifier output
and threshold 0.6, at position 0. -/
theorem C2_below_threshold_normalized_witness :
    normalizeTermSync (⟨"陌生词组XY", "", mkRat 0 1⟩ : NormResult).original =
        ("", mkRat 0 1) ∨
      ∃ d ∈ classifierNoKeyBatch ["陌生词组XY"],
        (⟨"陌生词组XY", "", mkRat 0 1⟩ : NormResult).normalized = d.original.getD "" ∧
        d.confidence = some (⟨"陌生词组XY", "", mkRat 0 1⟩ : NormResult).confidence :=
  C2_below_threshold_normalized ["陌生词组XY"] (mkRat 6 10)
    (classifierNoKeyBatch ["陌生词组XY"]) 0 ⟨"陌生词组XY", "", mkRat 0 1⟩
    (by decide) (by decide)

/-- C1 (counterexample).  On `["ANA", "白细胞", "完全未知术语"]` with
threshold 0.6 and the no-credential classifier fallback, the second
result is `("尿白细胞", 1.0)` — not `("白细胞计数", 1.0 or 0.8)` as
claimed — and the third result's `normalized` is `""`, not the original
input string. -/
theorem C1_counterexample :
    normalize_medical_terms_with_ai ["ANA", "白细胞", "完全未知术语"] (mkRat 6 10)
      (classifierNoKeyBatch ["完全未知术语"]) =
      [⟨"ANA", "抗核抗体", mkRat 1 1⟩, ⟨"白细胞", "尿白细胞", mkRat 1 1⟩,
       ⟨"完全未知术语", "", mkRat 0 1⟩] ∧
    ("尿白细胞" : String) ≠ "白细胞计数" ∧ ("" : String) ≠ "完全未知术语" :=
  ⟨by decide, by decide, by decide⟩

/-- C1 (amended).  With threshold 0.6 and no AI credential configured,
the batch returns, in input order: `("抗核抗体", 1.0)`; `("尿白细胞",
1.0)` — the shared variant `白细胞` is owned by the later dictionary
entry `尿白细胞`, which overwrote the key inserted by `白细胞计数`; and
for the third term confidence 0.0 with `normalized = ""` — the
below-threshold rewrite uses the adapter dict's `original` field, which
the no-credential fallback omits, so `.get("original", "")` yields the
empty string. -/
theorem C1_batch_scenario :
    normalize_medical_terms_with_ai ["ANA", "白细胞", "完全未知术语"] (mkRat 6 10)
      (classifierNoKeyBatch ["完全未知术语"]) =
      [⟨"ANA", "抗核抗体", mkRat 1 1⟩, ⟨"白细胞", "尿白细胞", mkRat 1 1⟩,
       ⟨"完全未知术语", "", mkRat 0 1⟩] := by
  decide

/-- C8 (counterexample).  `normalize("双链")` resolves at the partial
tier: `("抗双链DNA抗体", 0.8)`.  Feeding the canonical name back returns
`("抗双链DNA抗体", 1.0)`, so the full results differ — the claimed
equation `normalize(normalize(term).normalized) = normalize(term)`
fails whenever the first confidence is below 1.0. -/
theorem C8_counterexample :
    normalizeTermSync "双链" = ("抗双链DNA抗体", mkRat 8 10) ∧
    normalizeTermSync "抗双链DNA抗体" = ("抗双链DNA抗体", mkRat 1 1) ∧
    (("抗双链DNA抗体", mkRat 1 1) : String × ℚ) ≠ ("抗双链DNA抗体", mkRat 8 10) :=
  ⟨by decide, by decide, by decide⟩

/-- C8 (amended).  When a term's normalization yields a canonical name of
the fixed dictionary, normalizing that canonical name again returns the
same name at confidence 1.0 — so the `normalized` field is idempotent,
though the full result (with its confidence) is reproduced only when the
first pass already had confidence 1.0. -/
theorem C8_idempotent_on_canonical (term : String)
    (h : (normalizeTermSync term).1 ∈ dictKeys STANDARD_TERMS) :
    normalizeTermSync ((normalizeTermSync term).1) =
      ((normalizeTermSync term).1, mkRat 1 1) := by
  have key : ∀ s ∈ dictKeys STANDARD_TERMS, normalizeTermSync s = (s, mkRat 1 1) := by
    decide
  exact key _ h

/-- C8 (witness): the amended theorem applied to "ANA", whose
normalization yields the canonical name 抗核抗体. -/
theorem C8_idempotent_on_canonical_witness :
    normalizeTermSync ((normalizeTermSync "ANA").1) =
      ((normalizeTermSync "ANA").1, mkRat 1 1) :=
  C8_idempotent_on_canonical "ANA" (by decide)

/-- Dictionary state used for the C5 theorems: a reachable
post-`update_standard_terms` state in which the raw-form and
cleaned-form index keys disagree. -/
def C5_TS : List (String × List String) :=
  update_standard_terms STANDARD_TERMS [("甲指标", ["XY化验"]), ("乙指标", ["xy化验"])]

/-- The variant index rebuilt from `C5_TS`. -/
def C5_INDEX : List (String × String) := rebuildVariantIndex C5_TS

/-- C5 (counterexample).  The claim: the raw term is tested against the
index before its normalized form.  In the reachable dictionary state
`C5_INDEX`, the raw term "XY化验" is a key (mapping to 甲指标) while its
cleaned form "xy化验" maps to 乙指标; the matcher returns 乙指标, so
the cleaned-form check runs first. -/
theorem C5_counterexample :
    dictGet C5_INDEX "XY化验" = some "甲指标" ∧
    dictGet C5_INDEX (cleanTerm "XY化验") = some "乙指标" ∧
    normalizeTermSyncIn C5_INDEX C5_TS "XY化验" = ("乙指标", mkRat 1 1) ∧
    ("乙指标" : String) ≠ "甲指标" :=
  ⟨by decide, by decide, by decide, by decide⟩

/-- C5 (amended).  In the exact tier the *cleaned* form of the term is
tested for index membership first; the raw term is tested second, only
when the cleaned form missed.  Either hit returns confidence 1.0. -/
theorem C5_exact_tier_order (index : List (String × String))
    (ts : List (String × List String)) (term : String) :
    (∀ s, dictGet index (cleanTerm term) = some s →
      normalizeTermSyncIn index ts term = (s, mkRat 1 1)) ∧
    (∀ s, dictGet index (cleanTerm term) = none → dictGet index term = some s →
      normalizeTermSyncIn index ts term = (s, mkRat 1 1)) := by
  constructor
  · intro s h
    simp [normalizeTermSyncIn, h]
  · intro s h1 h2
    simp [normalizeTermSyncIn, h1, h2]

/-- C5 (witness): both tiers exercised — "Ana" hits via its cleaned form
"ana" in the import-time index; "WBC" hits via its raw form in the
rebuilt index `C5_INDEX`, whose cleaned form "wbc" is not a key. -/
theorem C5_exact_tier_order_witness :
    normalizeTermSync "Ana" = ("抗核抗体", mkRat 1 1) ∧
    normalizeTermSyncIn C5_INDEX C5_TS "WBC" = ("白细胞计数", mkRat 1 1) :=
  ⟨(C5_exact_tier_order VARIANT_TO_STANDARD STANDARD_TERMS "Ana").1 "抗核抗体" (by decide),
   (C5_exact_tier_order C5_INDEX C5_TS "WBC").2 "白细胞计数" (by decide) (by decide)⟩

/-- C4 (counterexample).  The claim: each variant form maps to the
canonical name of its entry.  "白细胞" is listed as a variant of
"白细胞计数", but the index maps it to "尿白细胞" — the later entry
that also lists it overwrote the key. -/
theorem C4_counterexample :
    dictGet STANDARD_TERMS "白细胞计数" = some ["白细胞", "WBC", "白血球计数", "白细胞数"] ∧
    dictGet VARIANT_TO_STANDARD "白细胞" = some "尿白细胞" ∧
    ("尿白细胞" : String) ≠ "白细胞计数" :=
  ⟨by decide, by decide, by decide⟩

/-- C4 (amended).  The import-time index contains, for every variant and
canonical name, the original-case form and the `lower()` form (what the
construction actually inserts; for this dictionary every fully-cleaned
form is present as a key too).  Every canonical name maps to itself, and
every variant maps to the canonical name of *some* entry that lists it —
the last such entry in insertion order, which for the shared variants
differs from the earlier listing entry. -/
theorem C4_index_contents :
    (∀ p ∈ STANDARD_TERMS, ∀ v ∈ p.2,
      v ∈ dictKeys VARIANT_TO_STANDARD ∧
      pyLower v ∈ dictKeys VARIANT_TO_STANDARD ∧
      cleanTerm v ∈ dictKeys VARIANT_TO_STANDARD) ∧
    (∀ p ∈ STANDARD_TERMS,
      dictGet VARIANT_TO_STANDARD p.1 = some p.1 ∧
      dictGet VARIANT_TO_STANDARD (pyLower p.1) = some p.1 ∧
      dictGet VARIANT_TO_STANDARD (cleanTerm p.1) = some p.1) ∧
    (∀ p ∈ STANDARD_TERMS, ∀ v ∈ p.2,
      ∃ q ∈ STANDARD_TERMS, dictGet VARIANT_TO_STANDARD v = some q.1 ∧ v ∈ q.2) := by
  refine ⟨by decide, by decide, by decide⟩

/-- C4 (witness): the amended theorem applied to the entry 抗双链DNA抗体
and its variant "ds-DNA" (whose cleaned form "dsdna" differs from both
stored forms), and to the shared variant "白细胞" of 白细胞计数, which
the index resolves to the listing entry 尿白细胞. -/
theorem C4_index_contents_witness :
    (("ds-DNA" : String) ∈ dictKeys VARIANT_TO_STANDARD ∧
      pyLower "ds-DNA" ∈ dictKeys VARIANT_TO_STANDARD ∧
      cleanTerm "ds-DNA" ∈ dictKeys VARIANT_TO_STANDARD) ∧
    (dictGet VARIANT_TO_STANDARD "C3" = some "C3" ∧
      dictGet VARIANT_TO_STANDARD (pyLower "C3") = some "C3" ∧
      dictGet VARIANT_TO_STANDARD (cleanTerm "C3") = some "C3") ∧
    (∃ q ∈ STANDARD_TERMS, dictGet VARIANT_TO_STANDARD "白细胞" = some q.1 ∧
      ("白细胞" : String) ∈ q.2) :=
  ⟨C4_index_contents.1 ("抗双链DNA抗体", ["dsDNA", "抗dsDNA抗体", "双链DNA抗体", "ds-DNA"])
      (by decide) "ds-DNA" (by decide),
   C4_index_contents.2.1 ("C3", ["补体C3", "C3补体", "补体成分3"]) (by decide),
   C4_index_contents.2.2 ("白细胞计数", ["白细胞", "WBC", "白血球计数", "白细胞数"])
      (by decide) "白细胞" (by decide)⟩

theorem mem_dictKeys_foldl_variants (s : String) :
    ∀ (vs : List String) (d : List (String × String)) (k : String),
      k ∈ dictKeys (vs.foldl (fun d v => dictInsert d v s) d) ↔
        k ∈ dictKeys d ∨ k ∈ vs
  | [], d, k => by simp
  | v :: vs, d, k => by
      rw [List.foldl_cons]
      rw [mem_dictKeys_foldl_variants s vs (dictInsert d v s) k]
      rw [mem_dictKeys_dictInsert]
      simp only [List.mem_cons]
      tauto

theorem mem_dictKeys_rebuild_foldl :
    ∀ (ts : List (String × List String)) (d : List (String × String)) (k : String),
      k ∈ dictKeys (ts.foldl (fun d p =>
          dictInsert (p.2.foldl (fun d v => dictInsert d v p.1) d) p.1 p.1) d) ↔
        k ∈ dictKeys d ∨ ∃ p ∈ ts, k = p.1 ∨ k ∈ p.2
  | [], d, k => by simp
  | p :: ts, d, k => by
      rw [List.foldl_cons]
      rw [mem_dictKeys_rebuild_foldl ts _ k]
      rw [mem_dictKeys_dictInsert]
      rw [mem_dictKeys_foldl_variants]
      simp only [List.mem_cons]
      constructor
      · rintro (h | h)
        · rcases h with h | h | h
          · exact Or.inr ⟨p, Or.inl rfl, Or.inl h⟩
          · exact Or.inl h
          · exact Or.inr ⟨p, Or.inl rfl, Or.inr h⟩
        · obtain ⟨q, hq, hk⟩ := h
          exact Or.inr ⟨q, Or.inr hq, hk⟩
      · rintro (h | ⟨q, hq | hq, hk⟩)
        · exact Or.inl (Or.inr (Or.inl h))
        · subst hq
          rcases hk with hk | hk
          · exact Or.inl (Or.inl hk)
          · exact Or.inl (Or.inr (Or.inr hk))
        · exact Or.inr ⟨q, hq, hk⟩

/-- The keys of a rebuilt index are exactly the variants and standard
names of the dictionary it was rebuilt from — no `lower()` forms. -/
theorem rebuild_keys_mem (ts : List (String × List String)) (k : String) :
    k ∈ dictKeys (rebuildVariantIndex ts) ↔ ∃ p ∈ ts, k = p.1 ∨ k ∈ p.2 := by
  rw [rebuildVariantIndex, mem_dictKeys_rebuild_foldl]
  simp [dictKeys]

/-- Dictionary state used for the C10 theorems: an extension that does
not touch the 抗核抗体 entry. -/
def C10_TS : List (String × List String) :=
  update_standard_terms STANDARD_TERMS [("新指标", ["XYZ"])]

/-- The variant index rebuilt from `C10_TS`. -/
def C10_INDEX : List (String × String) := rebuildVariantIndex C10_TS

/-- C10.  After any `update_standard_terms` call the rebuilt index's key
set is exactly the variants and canonical names of the updated
dictionary — the `lower()` forms that module initialisation added are
gone.  Concretely, after the unrelated extension `{"新指标": ["XYZ"]}`,
"ana" is no longer a key, and "Ana" — exact match at confidence 1.0
before — now resolves only at the partial tier with confidence 0.8,
still to 抗核抗体. -/
theorem C10_rebuild_drops_lower_forms :
    (∀ (newTerms : List (String × List String)) (k : String),
      k ∈ dictKeys (rebuildVariantIndex (update_standard_terms STANDARD_TERMS newTerms)) ↔
        ∃ p ∈ update_standard_terms STANDARD_TERMS newTerms, k = p.1 ∨ k ∈ p.2) ∧
    ("ana" : String) ∉ dictKeys C10_INDEX ∧
    normalizeTermSync "Ana" = ("抗核抗体", mkRat 1 1) ∧
    normalizeTermSyncIn C10_INDEX C10_TS "Ana" = ("抗核抗体", mkRat 8 10) :=
  ⟨fun newTerms k => rebuild_keys_mem _ k, by decide, by decide, by decide⟩

theorem gatherStep_get (d : List (String × List PIndicator)) (i : PIndicator) (n : String) :
    dictGet (gatherStep d i) n =
      if n = i.name then some ((dictGet d i.name).getD [] ++ [i]) else dictGet d n := by
  unfold gatherStep
  cases h : dictGet d i.name with
  | none => simp [dictGet_dictInsert, h]
  | some vs => simp [dictGet_dictInsert, h]

theorem foldl_gatherStep_get :
    ∀ (inds : List PIndicator) (d : List (String × List PIndicator)) (n : String),
      dictGet (inds.foldl gatherStep d) n =
        if (inds.filter (fun i => i.name == n)).isEmpty then dictGet d n
        else some ((dictGet d n).getD [] ++ inds.filter (fun i => i.name == n))
  | [], d, n => by simp
  | i :: inds, d, n => by
      rw [List.foldl_cons, foldl_gatherStep_get inds (gatherStep d i) n]
      by_cases hn : n = i.name
      · rw [hn]
        simp only [gatherStep_get, if_pos rfl, List.filter_cons, beq_self_eq_true, if_true]
        by_cases hrest : (inds.filter (fun j => j.name == i.name)).isEmpty
        · rw [if_pos hrest, List.isEmpty_iff.mp hrest]
          simp
        · rw [if_neg hrest]
          have hne : ¬ ((i :: inds.filter (fun j => j.name == i.name)).isEmpty = true) := by
            simp
          rw [if_neg hne]
          simp [List.append_assoc]
      · have hne : (i.name == n) = false := by
          simp only [beq_eq_false_iff_ne, ne_eq]
          exact fun hh => hn hh.symm
        simp only [gatherStep_get, hn, if_false, List.filter_cons, hne]
        simp

theorem gatherIndicators_eq_flat :
    ∀ (reports : List ParsedReport) (d : List (String × List PIndicator)),
      reports.foldl (fun d rep => rep.indicators.foldl gatherStep d) d =
        (reports.flatMap ParsedReport.indicators).foldl gatherStep d
  | [], _ => rfl
  | rep :: reports, d => by
      rw [List.foldl_cons, gatherIndicators_eq_flat reports _, List.flatMap_cons,
        List.foldl_append]

theorem gatherIndicators_get (reports : List ParsedReport) (n : String) :
    dictGet (gatherIndicators reports) n =
      if (allOccurrences reports n).isEmpty then none
      else some (allOccurrences reports n) := by
  rw [gatherIndicators, gatherIndicators_eq_flat, foldl_gatherStep_get]
  simp [allOccurrences, dictGet]

theorem dictKeys_nodup_insert {α : Type} :
    ∀ (d : List (String × α)) (k : String) (v : α),
      (dictKeys d).Nodup → (dictKeys (dictInsert d k v)).Nodup
  | [], k, v, _ => by simp [dictInsert, dictKeys]
  | (k0, v0) :: rest, k, v, h => by
      by_cases h0 : k0 = k
      · subst h0
        simpa [dictInsert, dictKeys] using h
      · simp only [dictKeys, List.map_cons, List.nodup_cons] at h
        obtain ⟨hnotin, hrest⟩ := h
        simp only [dictInsert, if_neg h0, dictKeys, List.map_cons, List.nodup_cons]
        refine ⟨?_, dictKeys_nodup_insert rest k v hrest⟩
        intro hmem
        rcases (mem_dictKeys_dictInsert rest k k0 v).mp hmem with rfl | hmem'
        · exact h0 rfl
        · exact hnotin hmem'

theorem gather_keys_nodup :
    ∀ (inds : List PIndicator) (d : List (String × List PIndicator)),
      (dictKeys d).Nodup → (dictKeys (inds.foldl gatherStep d)).Nodup
  | [], _, h => h
  | i :: inds, d, h => by
      rw [List.foldl_cons]
      apply gather_keys_nodup inds
      unfold gatherStep
      cases dictGet d i.name <;> exact dictKeys_nodup_insert _ _ _ h

theorem dictGet_of_mem_nodup {α : Type} :
    ∀ (d : List (String × α)) (k : String) (v : α),
      (dictKeys d).Nodup → (k, v) ∈ d → dictGet d k = some v
  | [], k, v, _, h => absurd h (by simp)
  | (k0, v0) :: rest, k, v, hnd, hmem => by
      simp only [dictKeys, List.map_cons, List.nodup_cons] at hnd
      rcases List.mem_cons.mp hmem with heq | hmem'
      · injection heq with h1 h2
        subst h1
        subst h2
        simp [dictGet]
      · have hk : ¬ k0 = k := by
          intro hkk
          subst hkk
          exact hnd.1 (List.mem_map_of_mem Prod.fst hmem')
        simp [dictGet, hk, dictGet_of_mem_nodup rest k v hnd.2 hmem']

/-- C3 (amended).  Every merged entry groups the input indicators by raw
`name` (these records carry no `normalized_name`): its occurrence list is
all same-named indicators in report-input order, and all display fields
come from the *first* occurrence in input order — not from the
chronologically newest report.  A lone occurrence passes through
unchanged; repeated ones get the occurrence count in `notes` and the
full input-order history in `trend`. -/
theorem C3_merge_first_occurrence_wins (reports : List ParsedReport)
    (m : MergedIndicator) (hm : m ∈ (parse_multiple_reports reports).indicators) :
    ∃ v vs, allOccurrences reports m.name = v :: vs ∧
      m.value = v.value ∧ m.unit = v.unit ∧ m.reference_range = v.reference_range ∧
      m.is_abnormal = v.is_abnormal ∧
      ((vs = [] ∧ m.trend = none ∧ m.notes = v.notes) ∨
       (vs ≠ [] ∧ m.trend = some (v :: vs) ∧
         m.notes = "多次检查,共" ++ toString (vs.length + 1) ++ "次")) := by
  obtain ⟨p, hp, hmg⟩ := List.mem_filterMap.mp hm
  obtain ⟨n, l⟩ := p
  have hnod : (dictKeys (gatherIndicators reports)).Nodup := by
    rw [gatherIndicators, gatherIndicators_eq_flat]
    exact gather_keys_nodup _ [] (by simp [dictKeys])
  have hget : dictGet (gatherIndicators reports) n = some l :=
    dictGet_of_mem_nodup _ n l hnod hp
  rw [gatherIndicators_get] at hget
  by_cases he : (allOccurrences reports n).isEmpty
  · rw [if_pos he] at hget
    exact absurd hget (by simp)
  · rw [if_neg he] at hget
    have hl : l = allOccurrences reports n := by
      injection hget with h
      exact h.symm
    rcases l with _ | ⟨v, rest⟩
    · simp [mergeGroup] at hmg
    · have hv : v.name = n := by
        have hvm : v ∈ allOccurrences reports n := by
          rw [← hl]
          simp
        rw [allOccurrences] at hvm
        exact beq_iff_eq.mp (List.mem_filter.mp hvm).2
      rcases rest with _ | ⟨w, rest2⟩
      · simp only [mergeGroup] at hmg
        obtain rfl : (⟨v.name, v.value, v.unit, v.reference_range, v.is_abnormal,
            v.notes, none⟩ : MergedIndicator) = m := by
          simpa using hmg
        refine ⟨v, [], ?_, rfl, rfl, rfl, rfl, Or.inl ⟨rfl, rfl, rfl⟩⟩
        show allOccurrences reports v.name = [v]
        rw [hv]
        exact hl.symm
      · simp only [mergeGroup] at hmg
        obtain rfl : (⟨n, v.value, v.unit, v.reference_range, v.is_abnormal,
            "多次检查,共" ++ toString (v :: w :: rest2).length ++ "次",
            some (v :: w :: rest2)⟩ : MergedIndicator) = m := by
          simpa using hmg
        refine ⟨v, w :: rest2, ?_, rfl, rfl, rfl, rfl,
          Or.inr ⟨by simp, rfl, rfl⟩⟩
        exact hl.symm

/-- Reports for the C3 counterexample: same indicator in both, the
chronologically older report listed first. -/
def C3_R1 : ParsedReport :=
  ⟨"2024-01-01", "", [⟨"白细胞计数", "3.8", "10^9/L", "4.0-10.0 10^9/L", true, ""⟩]⟩

/-- Second, chronologically newer report for the C3 counterexample. -/
def C3_R2 : ParsedReport :=
  ⟨"2024-06-01", "", [⟨"白细胞计数", "4.2", "10^9/L", "4.0-10.0 10^9/L", false, ""⟩]⟩

/-- C3 (counterexample).  The claim: `latest` is the indicator from the
report with the greatest date string, for any input order.  Merging the
older report (value 3.8) before the newer one (value 4.2) keeps the
older value as the merged entry, even though the merge sees the newer
date (the date comparison only updates the top-level `report_date`). -/
theorem C3_counterexample :
    (parse_multiple_reports [C3_R1, C3_R2]).report_date = some "2024-06-01" ∧
    (parse_multiple_reports [C3_R1, C3_R2]).indicators.map
      (fun m => (m.name, m.value)) = [("白细胞计数", "3.8")] ∧
    ("3.8" : String) ≠ "4.2" :=
  ⟨by decide, by decide, by decide⟩

/-- Single report used by the C3 witness. -/
def C3_RW : ParsedReport :=
  ⟨"2024-03-05", "", [⟨"C3", "0.5", "g/L", "0.8-1.6 g/L", true, ""⟩]⟩

/-- C3 (witness): the amended theorem applied to the one-report merge of
`C3_RW` at its single merged entry. -/
theorem C3_merge_first_occurrence_wins_witness :
    ∃ v vs, allOccurrences [C3_RW]
        (⟨"C3", "0.5", "g/L", "0.8-1.6 g/L", true, "", none⟩ : MergedIndicator).name =
        v :: vs ∧
      ("0.5" : String) = v.value ∧ ("g/L" : String) = v.unit ∧
      ("0.8-1.6 g/L" : String) = v.reference_range ∧ true = v.is_abnormal ∧
      ((vs = [] ∧ (none : Option (List PIndicator)) = none ∧ ("" : String) = v.notes) ∨
       (vs ≠ [] ∧ (none : Option (List PIndicator)) = some (v :: vs) ∧
         ("" : String) = "多次检查,共" ++ toString (vs.length + 1) ++ "次")) :=
  C3_merge_first_occurrence_wins [C3_RW]
    ⟨"C3", "0.5", "g/L", "0.8-1.6 g/L", true, "", none⟩ (by decide)

theorem parse_lab_foldlM_mem (text : String) :
    ∀ (rules : List LabRule) (acc out : List PIndicator),
      (rules.foldlM (fun acc rule =>
        match searchCapture rule text with
        | none => some acc
        | some v => (mkLabIndicator rule.name (String.mk (stripWs v))).map
            (fun i => acc ++ [i])) acc) = some out →
      (∀ x ∈ acc, x ∈ out) ∧
      (∀ rule ∈ rules, ∀ v, searchCapture rule text = some v →
        ∀ ind, mkLabIndicator rule.name (String.mk (stripWs v)) = some ind → ind ∈ out)
  | [], acc, out, h => by
      simp only [List.foldlM_nil] at h
      obtain rfl : acc = out := by simpa using h
      exact ⟨fun x hx => hx, by simp⟩
  | rule :: rules, acc, out, h => by
      rw [List.foldlM_cons] at h
      cases hstep : (match searchCapture rule text with
        | none => some acc
        | some v => (mkLabIndicator rule.name (String.mk (stripWs v))).map
            (fun i => acc ++ [i])) with
      | none =>
          rw [hstep] at h
          exact absurd h (by simp)
      | some acc' =>
          rw [hstep] at h
          simp only [Option.bind_eq_bind, Option.some_bind] at h
          have IH := parse_lab_foldlM_mem text rules acc' out h
          have hsub : ∀ x ∈ acc, x ∈ acc' := by
            intro x hx
            cases hs : searchCapture rule text with
            | none =>
                simp only [hs] at hstep
                obtain rfl : acc = acc' := by simpa using hstep
                exact hx
            | some v =>
                simp only [hs] at hstep
                cases hmk : mkLabIndicator rule.name (String.mk (stripWs v)) with
                | none => rw [hmk] at hstep; exact absurd hstep (by simp)
                | some ind0 =>
                    rw [hmk] at hstep
                    obtain rfl : acc ++ [ind0] = acc' := by simpa using hstep
                    exact List.mem_append_left _ hx
          refine ⟨fun x hx => IH.1 x (hsub x hx), ?_⟩
          intro r hr v hs ind hmk
          rcases List.mem_cons.mp hr with rfl | hr'
          · simp only [hs] at hstep
            rw [hmk] at hstep
            obtain rfl : acc ++ [ind] = acc' := by simpa using hstep
            exact IH.1 ind (List.mem_append_right _ (by simp))
          · exact IH.2 r hr' v hs ind hmk

/-- C9 (amended).  `re.search` keeps only the *first* match of the
white-blood-cell pattern, so the scenario holds for every lab text in
which the line `白细胞计数: 3.8` supplies that first match: the output
then contains the indicator 白细胞计数 with value "3.8" and
`is_abnormal = true`, because 3.8 is below the reference minimum 4.0. -/
theorem C9_wbc_first_match (text : String) (out : List PIndicator)
    (hok : parse_indicators_lab text = some out)
    (hsearch : searchCapture ⟨"白细胞计数", "白细胞", CapPat.numDots⟩ text =
      some "3.8".toList) :
    (⟨"白细胞计数", "3.8", "10^9/L", "4.0-10.0 10^9/L", true, ""⟩ : PIndicator) ∈ out := by
  rw [parse_indicators_lab] at hok
  exact (parse_lab_foldlM_mem text LAB_RULES [] out hok).2
    ⟨"白细胞计数", "白细胞", CapPat.numDots⟩ (by decide) "3.8".toList hsearch
    ⟨"白细胞计数", "3.8", "10^9/L", "4.0-10.0 10^9/L", true, ""⟩ (by decide)

/-- C9 (witness): the amended theorem applied to the text
`"白细胞计数: 3.8"`, for which the extractor's full output is computed
explicitly. -/
theorem C9_wbc_first_match_witness :
    (⟨"白细胞计数", "3.8", "10^9/L", "4.0-10.0 10^9/L", true, ""⟩ : PIndicator) ∈
      [(⟨"白细胞计数", "3.8", "10^9/L", "4.0-10.0 10^9/L", true, ""⟩ : PIndicator)] :=
  C9_wbc_first_match "白细胞计数: 3.8"
    [⟨"白细胞计数", "3.8", "10^9/L", "4.0-10.0 10^9/L", true, ""⟩]
    (by decide) (by decide)

/-- C9 (counterexample).  The claim quantifies over *any* lab text
containing the line `白细胞计数: 3.8`.  In a text whose earlier line
`白细胞: 5.0` provides the first match of the pattern, the extractor
reports value "5.0" (within range, not abnormal); no indicator with
value "3.8" is produced. -/
theorem C9_counterexample :
    isSubstrList "白细胞计数: 3.8".toList "白细胞: 5.0\n白细胞计数: 3.8".toList = true ∧
    parse_indicators_lab "白细胞: 5.0\n白细胞计数: 3.8" =
      some [⟨"白细胞计数", "5.0", "10^9/L", "4.0-10.0 10^9/L", false, ""⟩] ∧
    ("5.0" : String) ≠ "3.8" :=
  ⟨by decide, by decide, by decide⟩

end SLE
